import Mathlib

/-!
Verification of the Atlas Financial AI-engine request core: a shallow
embedding of the cache, batcher, load balancer and performance monitor
(`src/services/ai-engine/src/core/caching.py`,
`src/services/ai-engine/src/core/batching.py`,
`src/services/ai-engine/src/monitoring/performance_monitor.py`),
together with theorems settling the spec's claims about them.

Machine integers are modelled as `Int`/`Nat`, Python floats as `Rat`
(every float operation used by the verified properties is either exact or
irrelevant to the property because of a final clamp), Python dicts as
association lists, `asyncio.Future` completion as `Option (Except ε σ)`,
and fallible Redis calls as `Except`-valued store operations.
-/

namespace Atlas

/-! ## JSON values (Python dict payloads)

`InferenceCache._generate_cache_key` serializes the request payload with
`json.dumps(data, sort_keys=True, separators=(',', ':'))` and hashes the
string.  We model JSON values, the key-sorted canonical form that
`sort_keys=True` produces, and a serializer. -/

/-- JSON values as handled by `json.dumps`: numbers are modelled as `Rat`. -/
inductive Json where
  | null : Json
  | bool (b : Bool) : Json
  | num (q : Rat) : Json
  | str (s : String) : Json
  | arr (xs : List Json) : Json
  | obj (fields : List (String × Json)) : Json

/-- Ordering of object fields by key, as produced by `sort_keys=True`. -/
def fieldLe (p q : String × Json) : Prop := p.1 ≤ q.1

instance : DecidableRel fieldLe := fun p q => inferInstanceAs (Decidable (p.1 ≤ q.1))

instance : IsTotal (String × Json) fieldLe := ⟨fun p q => le_total p.1 q.1⟩

instance : IsTrans (String × Json) fieldLe := ⟨fun _ _ _ h h' => le_trans h h'⟩

/-- Strict key ordering, used to show the sorted field list is unique. -/
def fieldLt (p q : String × Json) : Prop := p.1 < q.1

instance : IsAntisymm (String × Json) fieldLt :=
  ⟨fun _ _ h h' => absurd h' (lt_asymm h)⟩

/-- Sort an object's fields by key (`sort_keys=True`). -/
def sortFields (l : List (String × Json)) : List (String × Json) :=
  List.insertionSort fieldLe l

mutual

/-- Canonical form of a JSON value: every object's fields sorted by key,
recursively.  `json.dumps(·, sort_keys=True)` serializes exactly this form. -/
def canon : Json → Json
  | Json.null => Json.null
  | Json.bool b => Json.bool b
  | Json.num q => Json.num q
  | Json.str s => Json.str s
  | Json.arr xs => Json.arr (canonList xs)
  | Json.obj l => Json.obj (sortFields (canonFields l))

/-- Canonical form of each element of a JSON array. -/
def canonList : List Json → List Json
  | [] => []
  | x :: xs => canon x :: canonList xs

/-- Canonical form of each value of an object's field list. -/
def canonFields : List (String × Json) → List (String × Json)
  | [] => []
  | p :: ps => (p.1, canon p.2) :: canonFields ps

end

mutual

/-- Serializer for JSON values, modelling
`json.dumps(·, separators=(',', ':'))` applied to the canonical form. -/
def render : Json → String
  | Json.null => "null"
  | Json.bool true => "true"
  | Json.bool false => "false"
  | Json.num q => toString q
  | Json.str s => "\"" ++ s ++ "\""
  | Json.arr xs => "[" ++ renderList xs ++ "]"
  | Json.obj l => "\x7b" ++ renderFields l ++ "\x7d"

/-- Comma-separated serialization of array elements. -/
def renderList : List Json → String
  | [] => ""
  | [x] => render x
  | x :: y :: xs => render x ++ "," ++ renderList (y :: xs)

/-- Comma-separated serialization of object fields. -/
def renderFields : List (String × Json) → String
  | [] => ""
  | [p] => "\"" ++ p.1 ++ "\":" ++ render p.2
  | p :: q :: ps => "\"" ++ p.1 ++ "\":" ++ render p.2 ++ "," ++ renderFields (q :: ps)

end

/-- Model of `json.dumps(data, sort_keys=True, separators=(',', ':'))`:
serialize the canonical (key-sorted) form. -/
def dumps (j : Json) : String := render (canon j)

/-- Model of `InferenceCache._generate_cache_key`.  The SHA-256-prefix step
`hashlib.sha256(data_str.encode()).hexdigest()[:16]` is abstracted as an
arbitrary function `hash` of the serialized payload: key determinism
reduces to determinism of the serialized string. -/
def generate_cache_key (hash : String → String) (operation user_id : String)
    (data : Json) : String :=
  "ai_inference:" ++ operation ++ ":" ++ user_id ++ ":" ++ hash (dumps data)

mutual

/-- Well-formedness of a payload as a Python value: object keys are
duplicate-free at every level (dicts cannot repeat keys). -/
def WFJson : Json → Prop
  | Json.arr xs => WFList xs
  | Json.obj l => (l.map Prod.fst).Nodup ∧ WFFields l
  | _ => True

/-- Well-formedness of every element of an array. -/
def WFList : List Json → Prop
  | [] => True
  | x :: xs => WFJson x ∧ WFList xs

/-- Well-formedness of every value of an object's field list. -/
def WFFields : List (String × Json) → Prop
  | [] => True
  | p :: ps => WFJson p.2 ∧ WFFields ps

end

mutual

/-- Two JSON values are equal as maps: identical except that at every
object node the key–value pairs may appear in any order. -/
def Reorder : Json → Json → Prop
  | Json.null, Json.null => True
  | Json.bool a, Json.bool b => a = b
  | Json.num a, Json.num b => a = b
  | Json.str a, Json.str b => a = b
  | Json.arr xs, Json.arr ys => ReorderList xs ys
  | Json.obj l₁, Json.obj l₃ => ∃ l₂, ReorderFields l₁ l₂ ∧ l₂.Perm l₃
  | _, _ => False

/-- Pointwise `Reorder` on array elements. -/
def ReorderList : List Json → List Json → Prop
  | [], [] => True
  | x :: xs, y :: ys => Reorder x y ∧ ReorderList xs ys
  | _, _ => False

/-- Pointwise `Reorder` on object fields: equal keys, reordered values. -/
def ReorderFields : List (String × Json) → List (String × Json) → Prop
  | [], [] => True
  | p :: ps, q :: qs => p.1 = q.1 ∧ Reorder p.2 q.2 ∧ ReorderFields ps qs
  | _, _ => False

end

theorem canonFields_eq_map (l : List (String × Json)) :
    canonFields l = l.map (fun p => (p.1, canon p.2)) := by
  induction l with
  | nil => rfl
  | cons p ps ih => simp [canonFields, ih]

theorem map_fst_canonFields (l : List (String × Json)) :
    (canonFields l).map Prod.fst = l.map Prod.fst := by
  simp [canonFields_eq_map, List.map_map, Function.comp]

/-- Sorting by key determines the field list uniquely once keys are
duplicate-free: permuted inputs sort to the same list. -/
theorem sortFields_eq_of_perm {l₁ l₂ : List (String × Json)} (hp : l₁.Perm l₂)
    (hn : (l₁.map Prod.fst).Nodup) : sortFields l₁ = sortFields l₂ := by
  have hperm : (sortFields l₁).Perm (sortFields l₂) :=
    (List.perm_insertionSort fieldLe l₁).trans
      (hp.trans (List.perm_insertionSort fieldLe l₂).symm)
  have hs₁ : (sortFields l₁).Sorted fieldLe := List.sorted_insertionSort fieldLe l₁
  have hs₂ : (sortFields l₂).Sorted fieldLe := List.sorted_insertionSort fieldLe l₂
  have hn₁ : ((sortFields l₁).map Prod.fst).Nodup :=
    (((List.perm_insertionSort fieldLe l₁).map Prod.fst).nodup_iff).mpr hn
  have hn₂ : ((sortFields l₂).map Prod.fst).Nodup :=
    ((hperm.map Prod.fst).nodup_iff).mp hn₁
  have hlt : ∀ {l : List (String × Json)}, l.Sorted fieldLe →
      (l.map Prod.fst).Nodup → l.Sorted fieldLt := by
    intro l hle hnd
    have hne : l.Pairwise (fun p q => p.1 ≠ q.1) := List.pairwise_map.mp hnd
    exact (hle.and hne).imp (fun h => lt_of_le_of_ne h.1 h.2)
  exact List.eq_of_perm_of_sorted hperm (hlt hs₁ hn₁) (hlt hs₂ hn₂)

mutual

/-- Map-equal well-formed payloads have the same canonical form. -/
theorem reorder_canon : ∀ a b : Json, WFJson a → Reorder a b → canon a = canon b
  | Json.null, Json.null, _, _ => rfl
  | Json.bool a, Json.bool b, _, h => by
      cases (by simpa [Reorder] using h : a = b); rfl
  | Json.num a, Json.num b, _, h => by
      cases (by simpa [Reorder] using h : a = b); rfl
  | Json.str a, Json.str b, _, h => by
      cases (by simpa [Reorder] using h : a = b); rfl
  | Json.arr xs, Json.arr ys, hw, h => by
      have hl : ReorderList xs ys := by simpa [Reorder] using h
      have hwl : WFList xs := by simpa [WFJson] using hw
      simp [canon, reorderList_canon xs ys hwl hl]
  | Json.obj l₁, Json.obj l₃, hw, h => by
      obtain ⟨l₂, hf, hperm⟩ : ∃ l₂, ReorderFields l₁ l₂ ∧ l₂.Perm l₃ := by
        simpa [Reorder] using h
      obtain ⟨hnd, hwf⟩ : (l₁.map Prod.fst).Nodup ∧ WFFields l₁ := by
        simpa [WFJson] using hw
      have h₁₂ : canonFields l₁ = canonFields l₂ := reorderFields_canon l₁ l₂ hwf hf
      have h₂₃ : (canonFields l₂).Perm (canonFields l₃) := by
        rw [canonFields_eq_map, canonFields_eq_map]
        exact hperm.map _
      have hnd₁ : ((canonFields l₁).map Prod.fst).Nodup := by
        rwa [map_fst_canonFields]
      simp only [canon]
      rw [sortFields_eq_of_perm (h₁₂ ▸ h₂₃) hnd₁]
  | Json.null, Json.bool _, _, h => absurd h (by simp [Reorder])
  | Json.null, Json.num _, _, h => absurd h (by simp [Reorder])
  | Json.null, Json.str _, _, h => absurd h (by simp [Reorder])
  | Json.null, Json.arr _, _, h => absurd h (by simp [Reorder])
  | Json.null, Json.obj _, _, h => absurd h (by simp [Reorder])
  | Json.bool _, Json.null, _, h => absurd h (by simp [Reorder])
  | Json.bool _, Json.num _, _, h => absurd h (by simp [Reorder])
  | Json.bool _, Json.str _, _, h => absurd h (by simp [Reorder])
  | Json.bool _, Json.arr _, _, h => absurd h (by simp [Reorder])
  | Json.bool _, Json.obj _, _, h => absurd h (by simp [Reorder])
  | Json.num _, Json.null, _, h => absurd h (by simp [Reorder])
  | Json.num _, Json.bool _, _, h => absurd h (by simp [Reorder])
  | Json.num _, Json.str _, _, h => absurd h (by simp [Reorder])
  | Json.num _, Json.arr _, _, h => absurd h (by simp [Reorder])
  | Json.num _, Json.obj _, _, h => absurd h (by simp [Reorder])
  | Json.str _, Json.null, _, h => absurd h (by simp [Reorder])
  | Json.str _, Json.bool _, _, h => absurd h (by simp [Reorder])
  | Json.str _, Json.num _, _, h => absurd h (by simp [Reorder])
  | Json.str _, Json.arr _, _, h => absurd h (by simp [Reorder])
  | Json.str _, Json.obj _, _, h => absurd h (by simp [Reorder])
  | Json.arr _, Json.null, _, h => absurd h (by simp [Reorder])
  | Json.arr _, Json.bool _, _, h => absurd h (by simp [Reorder])
  | Json.arr _, Json.num _, _, h => absurd h (by simp [Reorder])
  | Json.arr _, Json.str _, _, h => absurd h (by simp [Reorder])
  | Json.arr _, Json.obj _, _, h => absurd h (by simp [Reorder])
  | Json.obj _, Json.null, _, h => absurd h (by simp [Reorder])
  | Json.obj _, Json.bool _, _, h => absurd h (by simp [Reorder])
  | Json.obj _, Json.num _, _, h => absurd h (by simp [Reorder])
  | Json.obj _, Json.str _, _, h => absurd h (by simp [Reorder])
  | Json.obj _, Json.arr _, _, h => absurd h (by simp [Reorder])

/-- Elementwise version of `reorder_canon` for arrays. -/
theorem reorderList_canon : ∀ xs ys : List Json, WFList xs → ReorderList xs ys →
    canonList xs = canonList ys
  | [], [], _, _ => rfl
  | [], _ :: _, _, h => absurd h (by simp [ReorderList])
  | _ :: _, [], _, h => absurd h (by simp [ReorderList])
  | x :: xs, y :: ys, hw, h => by
      obtain ⟨h₁, h₂⟩ : Reorder x y ∧ ReorderList xs ys := by simpa [ReorderList] using h
      obtain ⟨hw₁, hw₂⟩ : WFJson x ∧ WFList xs := by simpa [WFList] using hw
      simp [canonList, reorder_canon x y hw₁ h₁, reorderList_canon xs ys hw₂ h₂]

/-- Elementwise version of `reorder_canon` for object fields. -/
theorem reorderFields_canon : ∀ l₁ l₂ : List (String × Json), WFFields l₁ →
    ReorderFields l₁ l₂ → canonFields l₁ = canonFields l₂
  | [], [], _, _ => rfl
  | [], _ :: _, _, h => absurd h (by simp [ReorderFields])
  | _ :: _, [], _, h => absurd h (by simp [ReorderFields])
  | p :: ps, q :: qs, hw, h => by
      obtain ⟨h₁, h₂, h₃⟩ : p.1 = q.1 ∧ Reorder p.2 q.2 ∧ ReorderFields ps qs := by
        simpa [ReorderFields] using h
      obtain ⟨hw₁, hw₂⟩ : WFJson p.2 ∧ WFFields ps := by simpa [WFFields] using hw
      simp [canonFields, h₁, reorder_canon p.2 q.2 hw₁ h₂, reorderFields_canon ps qs hw₂ h₃]

end

/-! ## Load balancer and circuit breaker (`batching.py`, class `LoadBalancer`)

Per-endpoint state is the `BackendEndpoint` dataclass plus the
`circuit_breaker_state[endpoint_id]` dict `{failures, last_failure, state}`.
Times (`datetime.utcnow()` values) are modelled as seconds since an epoch,
`Nat`; elapsed-seconds subtraction on these models
`(datetime.utcnow() - last_failure).total_seconds()`. -/

/-- Circuit breaker state values `'closed'`, `'open'`, `'half_open'`. -/
inductive CBState where
  | closed : CBState
  | opened : CBState
  | half_open : CBState
deriving DecidableEq, Repr

/-- The `circuit_breaker_state[endpoint_id]` dict. -/
structure CircuitInfo where
  failures : Nat
  lastFailure : Option Nat
  state : CBState
deriving DecidableEq, Repr

/-- `LoadBalancer.circuit_breaker_threshold = 5` failures. -/
def circuit_breaker_threshold : Nat := 5

/-- `LoadBalancer.circuit_breaker_timeout = 60` seconds. -/
def circuit_breaker_timeout : Nat := 60

/-- Circuit breaker state created by `LoadBalancer.register_endpoint`. -/
def initCircuit : CircuitInfo := ⟨0, none, CBState.closed⟩

/-- Model of `LoadBalancer._handle_endpoint_failure`: count the failure,
stamp its time, and open the circuit once the threshold is reached. -/
def handle_endpoint_failure (now : Nat) (c : CircuitInfo) : CircuitInfo :=
  let f := c.failures + 1
  { failures := f
    lastFailure := some now
    state := if circuit_breaker_threshold ≤ f then CBState.opened else c.state }

/-- Circuit breaker part of the `success` branch of
`LoadBalancer.release_endpoint`: a success closes a half-open circuit and
resets its failure count, and does nothing otherwise. -/
def release_success_circuit (c : CircuitInfo) : CircuitInfo :=
  if c.state = CBState.half_open then
    { c with state := CBState.closed, failures := 0 }
  else c

/-- Model of `LoadBalancer._is_circuit_closed`: returns whether the
endpoint is available and the (possibly updated) circuit state, since the
method mutates an open circuit to half-open once the timeout has elapsed. -/
def is_circuit_closed (now : Nat) (c : CircuitInfo) : Bool × CircuitInfo :=
  match c.state with
  | CBState.closed => (true, c)
  | CBState.opened =>
    match c.lastFailure with
    | some t =>
      if circuit_breaker_timeout < now - t then
        (true, { c with state := CBState.half_open })
      else (false, c)
    | none => (false, c)
  | CBState.half_open => (true, c)

/-- Events that touch one endpoint's circuit breaker: a
`release_endpoint` call (with its success flag) and an
`_is_circuit_closed` check, each at a time `now`. -/
inductive CBEvent where
  | release (now : Nat) (success : Bool) : CBEvent
  | check (now : Nat) : CBEvent
deriving DecidableEq, Repr

/-- One circuit-breaker transition of the code. -/
def cbStep (c : CircuitInfo) : CBEvent → CircuitInfo
  | CBEvent.release _ true => release_success_circuit c
  | CBEvent.release now false => handle_endpoint_failure now c
  | CBEvent.check now => (is_circuit_closed now c).2

/-- Circuit state after a sequence of events, starting from registration. -/
def cbRun (evts : List CBEvent) : CircuitInfo := evts.foldl cbStep initCircuit

/-- Modelled from the spec: the success branch of the circuit breaker as
the spec words it — "a success while closed restarts the failure count"
(the code's `release_endpoint` resets the count only from `half_open`). -/
def release_success_circuit_spec (c : CircuitInfo) : CircuitInfo :=
  if c.state = CBState.half_open then
    { c with state := CBState.closed, failures := 0 }
  else if c.state = CBState.closed then
    { c with failures := 0 }
  else c

/-- One transition of the spec-worded circuit breaker machine. -/
def cbStepSpec (c : CircuitInfo) : CBEvent → CircuitInfo
  | CBEvent.release _ true => release_success_circuit_spec c
  | CBEvent.release now false => handle_endpoint_failure now c
  | CBEvent.check now => (is_circuit_closed now c).2

/-- Spec-worded circuit state after a sequence of events. -/
def cbRunSpec (evts : List CBEvent) : CircuitInfo :=
  evts.foldl cbStepSpec initCircuit

/-- The `BackendEndpoint` dataclass.  `datetime` field
`last_health_check` is a `Nat` timestamp. -/
structure BackendEndpoint where
  endpoint_id : String
  url : String
  max_concurrent : Int
  current_load : Int
  avg_response_time_ms : Rat
  success_rate : Rat
  last_health_check : Nat
  healthy : Bool
  weight : Rat
deriving DecidableEq, Repr

/-- Model of `LoadBalancer.register_endpoint`: the freshly stored
`BackendEndpoint` (defaults `current_load=0`, `avg_response_time_ms=0.0`,
`success_rate=1.0`, `healthy=True`). -/
def register_endpoint (endpoint_id url : String) (max_concurrent : Int)
    (weight : Rat) : BackendEndpoint :=
  { endpoint_id := endpoint_id
    url := url
    max_concurrent := max_concurrent
    current_load := 0
    avg_response_time_ms := 0
    success_rate := 1
    last_health_check := 0
    healthy := true
    weight := weight }

/-- Model of `LoadBalancer.acquire_endpoint`: refuse at capacity,
otherwise increment the load; returns the flag and the updated endpoint. -/
def acquire_endpoint (ep : BackendEndpoint) : Bool × BackendEndpoint :=
  if ep.max_concurrent ≤ ep.current_load then (false, ep)
  else (true, { ep with current_load := ep.current_load + 1 })

/-- Model of `LoadBalancer.release_endpoint`: decrement the load (floored
at 0), update the latency EMA (`alpha = 0.1`) and success rate on success,
penalize the success rate and feed the circuit breaker on failure.
Returns the updated endpoint and circuit state. -/
def release_endpoint (ep : BackendEndpoint) (response_time_ms : Rat)
    (success : Bool) (c : CircuitInfo) (now : Nat) :
    BackendEndpoint × CircuitInfo :=
  let ep := { ep with current_load := max 0 (ep.current_load - 1) }
  if success then
    ({ ep with
        avg_response_time_ms :=
          (1 / 10) * response_time_ms + (1 - 1 / 10) * ep.avg_response_time_ms
        success_rate := min 1 (ep.success_rate + 1 / 100) },
     release_success_circuit c)
  else
    ({ ep with success_rate := max 0 (ep.success_rate - 5 / 100) },
     handle_endpoint_failure now c)

/-- The `LoadBalancingStrategy` enum. -/
inductive LoadBalancingStrategy where
  | round_robin : LoadBalancingStrategy
  | least_connections : LoadBalancingStrategy
  | weighted_response_time : LoadBalancingStrategy
  | resource_based : LoadBalancingStrategy
deriving DecidableEq, Repr

/-- Python `min(iterable, key=f)` over a non-empty list: the first element
with the least key. -/
def listMinBy {α β : Type} [LinearOrder β] (f : α → β) : α → List α → α
  | a, [] => a
  | a, b :: l => listMinBy f (if f b < f a then b else a) l

/-- The score of `LoadBalancer._weighted_response_time_select`
(lower is better). -/
def score_endpoint (ep : BackendEndpoint) : Rat :=
  let response_time_factor := ep.avg_response_time_ms / 1000
  let success_rate_factor := 1 - ep.success_rate
  let load_factor := (ep.current_load : Rat) / (ep.max_concurrent : Rat)
  (response_time_factor + success_rate_factor + load_factor) / ep.weight

/-- The score of `LoadBalancer._resource_based_select` (lower is better). -/
def resource_score (ep : BackendEndpoint) : Rat :=
  let load_share := (ep.current_load : Rat) / (ep.max_concurrent : Rat)
  let response_penalty := min (ep.avg_response_time_ms / 500) 2
  (load_share + response_penalty) / ep.weight

/-- The candidate filter of `LoadBalancer.select_endpoint`: keep
endpoints that are healthy, under capacity and whose circuit check
passes, threading the circuit-state mutations `_is_circuit_closed`
performs (the comprehension short-circuits, so the circuit is only
checked for healthy, under-capacity endpoints).  Returns the available
list and the updated circuit map. -/
def select_available (now : Nat) :
    (String → CircuitInfo) → List BackendEndpoint →
    List BackendEndpoint × (String → CircuitInfo)
  | circuits, [] => ([], circuits)
  | circuits, ep :: rest =>
    if ep.healthy ∧ ep.current_load < ep.max_concurrent then
      let res := is_circuit_closed now (circuits ep.endpoint_id)
      let tail :=
        select_available now (Function.update circuits ep.endpoint_id res.2) rest
      (if res.1 then ep :: tail.1 else tail.1, tail.2)
    else
      select_available now circuits rest

/-- Mutable state of a `LoadBalancer` instance as far as
`select_endpoint` reads it. -/
structure LBState where
  strategy : LoadBalancingStrategy
  endpoints : List BackendEndpoint
  circuits : String → CircuitInfo
  rrIndex : Nat

/-- Model of `LoadBalancer.select_endpoint`: filter the candidates, then
pick per strategy (rotating index for round-robin, first-minimal score
for the others, as Python `min` returns the first minimum). -/
def select_endpoint (s : LBState) (now : Nat) : Option BackendEndpoint × LBState :=
  let av := select_available now s.circuits s.endpoints
  let s' := { s with circuits := av.2 }
  match av.1 with
  | [] => (none, s')
  | a :: rest =>
    match s.strategy with
    | LoadBalancingStrategy.round_robin =>
      (some ((a :: rest).get ⟨s.rrIndex % (a :: rest).length,
         Nat.mod_lt _ (Nat.succ_pos _)⟩),
       { s' with rrIndex := s.rrIndex + 1 })
    | LoadBalancingStrategy.least_connections =>
      (some (listMinBy (fun ep => ep.current_load) a rest), s')
    | LoadBalancingStrategy.weighted_response_time =>
      (some (listMinBy score_endpoint a rest), s')
    | LoadBalancingStrategy.resource_based =>
      (some (listMinBy resource_score a rest), s')

/-! ## Request batcher (`batching.py`, class `RequestBatcher`)

A pending request's `asyncio.Future` is modelled by its completion state
`Option (Except ε σ)`: `none` for a never-completed future, `some (.ok r)`
after `set_result(r)`, `some (.error e)` after `set_exception(e)`.  A
request is a pair `(cancelled, payload)`, the `future.cancelled()` flag
frozen at batch-processing time. -/

/-- `BatchConfig.max_batch_size` default. -/
def batcher_max_batch_size : Nat := 32

/-- The dequeue step of `RequestBatcher._trigger_batch` for the
non-priority strategies: take the first `max_batch_size` queued requests,
keep the rest queued. -/
def trigger_batch_requests {ρ : Type} (queue : List ρ) (max_batch_size : Nat) :
    List ρ × List ρ :=
  (queue.take max_batch_size, queue.drop max_batch_size)

/-- The fields of the `PendingRequest` dataclass that the priority-queue
extraction reads. -/
structure PendingRequest where
  request_id : String
  operation : String
  user_id : String
  priority : Int
  batch_key : String

/-- Loop body of `RequestBatcher._extract_priority_requests`: pop scored
entries while fewer than `max_batch_size` matches were collected, keeping
matches and remembering non-matches; the heap is modelled as the list of
entries in pop order.  Returns the extracted requests and the entries
that go back to (or stayed in) the heap. -/
def extract_priority_loop (max_batch_size : Nat) (batch_key : String) :
    List (Rat × PendingRequest) → List PendingRequest →
    List (Rat × PendingRequest) →
    List PendingRequest × List (Rat × PendingRequest)
  | [], requests, remaining => (requests, remaining)
  | x :: rest, requests, remaining =>
    if requests.length < max_batch_size then
      if x.2.batch_key = batch_key then
        extract_priority_loop max_batch_size batch_key rest
          (requests ++ [x.2]) remaining
      else
        extract_priority_loop max_batch_size batch_key rest
          requests (remaining ++ [x])
    else (requests, remaining ++ x :: rest)

/-- Model of `RequestBatcher._extract_priority_requests`. -/
def extract_priority_requests (max_batch_size : Nat) (batch_key : String)
    (priority_queue : List (Rat × PendingRequest)) :
    List PendingRequest × List (Rat × PendingRequest) :=
  extract_priority_loop max_batch_size batch_key priority_queue [] []

/-- The result loop of `RequestBatcher._process_batch`
(`for i, request in enumerate(requests)` starting at index `i`): set the
positional mock result `mk i request` on each non-cancelled future. -/
def mock_batch_results {ρ σ ε : Type} (mk : Nat → ρ → σ) :
    Nat → List (Bool × ρ) → List (Option (Except ε σ))
  | _, [] => []
  | i, (c, r) :: rest =>
    (if c then none else some (Except.ok (mk i r))) ::
      mock_batch_results mk (i + 1) rest

/-- Each non-cancelled request's own positional result, in order: the
values `mock_batch_results` sets on the completed futures. -/
def ownResults {ρ σ : Type} (mk : Nat → ρ → σ) :
    Nat → List (Bool × ρ) → List σ
  | _, [] => []
  | i, (c, r) :: rest =>
    if c then ownResults mk (i + 1) rest
    else mk i r :: ownResults mk (i + 1) rest

/-- Model of `RequestBatcher._process_batch` applied to the dequeued
`requests` (pairs of the `future.cancelled()` flag and the request).
The body either runs to completion, setting one positional mock result
`mk i request` on every non-cancelled future, or raises `e` — modelled by
`outcome` — in which case the `except` clause sets `e` on every
non-cancelled future (the only fallible statements precede the
result-setting loop). -/
def process_batch {ρ σ ε : Type} (requests : List (Bool × ρ))
    (outcome : Except ε Unit) (mk : Nat → ρ → σ) :
    List (Option (Except ε σ)) :=
  match outcome with
  | Except.ok _ => mock_batch_results mk 0 requests
  | Except.error e =>
    requests.map fun p => if p.1 then none else some (Except.error e)

/-! ## Cache batched computation (`caching.py`, `InferenceCache._execute_batch`) -/

/-- The `InferenceCache.max_batch_size` attribute (set to 32 in
`__init__` and never read by the batched-compute path). -/
def cache_max_batch_size : Nat := 32

/-- The requests `InferenceCache._execute_batch` passes to
`compute_func`: the payloads of the pending entries whose futures are not
cancelled, in arrival order. -/
def activeRequests {ρ : Type} (pending : List (Bool × ρ)) : List ρ :=
  (pending.filter fun p => !p.1).map Prod.snd

/-- Positional fan-out of `_execute_batch`'s success path: the i-th
non-cancelled future receives `results[i]`; a future is left incomplete
if it was cancelled or if `results` runs out (`if i < len(results)`). -/
def assignResults {ρ σ ε : Type} :
    List (Bool × ρ) → List σ → List (Option (Except ε σ))
  | [], _ => []
  | (true, _) :: rest, results => none :: assignResults rest results
  | (false, _) :: rest, r :: results =>
    some (Except.ok r) :: assignResults rest results
  | (false, _) :: rest, [] => none :: assignResults rest []

/-- Model of `InferenceCache._execute_batch` acting on one drained batch:
returns the completion state of each pending future.  If every future was
already cancelled the compute function is never called (`if not requests:
return`); if `compute` raises, the exception is set on every non-cancelled
pending future; otherwise results are fanned out by position.  (The
per-result `cache_result` call swallows its own errors and is modelled
separately.) -/
def execute_batch {ρ σ ε : Type} (pending : List (Bool × ρ))
    (compute : List ρ → Except ε (List σ)) : List (Option (Except ε σ)) :=
  let requests := activeRequests pending
  if requests.isEmpty then pending.map fun _ => none
  else
    match compute requests with
    | Except.ok results => assignResults pending results
    | Except.error e =>
      pending.map fun p => if p.1 then none else some (Except.error e)

/-- The values of the completed futures of a batch, in order. -/
def completedValues {α : Type} (out : List (Option α)) : List α :=
  out.filterMap id

/-! ## Cache entry operations (`caching.py`, class `InferenceCache`) -/

/-- Python `int()` applied to a real value: truncation toward zero. -/
def pyInt (q : Rat) : Int := if 0 ≤ q then ⌊q⌋ else ⌈q⌉

/-- The `CacheStrategy` enum. -/
inductive CacheStrategy where
  | ttl_only : CacheStrategy
  | dependency_based : CacheStrategy
  | event_driven : CacheStrategy
  | adaptive : CacheStrategy
deriving DecidableEq, Repr

/-- The fields of the `CacheConfig` dataclass the verified paths read. -/
structure CacheConfig where
  ttl_seconds : Int
  max_size_mb : Int
  strategy : CacheStrategy
  batch_compatible : Bool
  warmup_enabled : Bool
deriving DecidableEq, Repr

/-- `CacheConfig()` defaults. -/
def defaultCacheConfig : CacheConfig :=
  { ttl_seconds := 300
    max_size_mb := 100
    strategy := CacheStrategy.ttl_only
    batch_compatible := false
    warmup_enabled := false }

/-- The `InferenceCache.cache_configs` table;
`self.cache_configs.get(operation, CacheConfig())`. -/
def cache_configs (operation : String) : CacheConfig :=
  if operation = "budget_optimization" then
    { ttl_seconds := 1800, max_size_mb := 50,
      strategy := CacheStrategy.dependency_based,
      batch_compatible := true, warmup_enabled := true }
  else if operation = "portfolio_analysis" then
    { ttl_seconds := 600, max_size_mb := 75,
      strategy := CacheStrategy.event_driven,
      batch_compatible := true, warmup_enabled := true }
  else if operation = "debt_strategy" then
    { ttl_seconds := 3600, max_size_mb := 25,
      strategy := CacheStrategy.ttl_only,
      batch_compatible := false, warmup_enabled := false }
  else if operation = "market_intelligence" then
    { ttl_seconds := 60, max_size_mb := 100,
      strategy := CacheStrategy.adaptive,
      batch_compatible := true, warmup_enabled := true }
  else if operation = "goal_planning" then
    { ttl_seconds := 7200, max_size_mb := 30,
      strategy := CacheStrategy.dependency_based,
      batch_compatible := false, warmup_enabled := false }
  else if operation = "financial_analysis" then
    { ttl_seconds := 900, max_size_mb := 60,
      strategy := CacheStrategy.adaptive,
      batch_compatible := true, warmup_enabled := true }
  else defaultCacheConfig

/-- The `volatility_factors` table of `_calculate_adaptive_ttl`, with
`.get(operation, 1.0)`. -/
def volatility_factors (operation : String) : Rat :=
  if operation = "market_intelligence" then 3 / 10
  else if operation = "portfolio_analysis" then 6 / 10
  else if operation = "budget_optimization" then 8 / 10
  else if operation = "debt_strategy" then 1
  else if operation = "goal_planning" then 12 / 10
  else 1

/-- Field lookup in a JSON object, modelling `dict.get`. -/
def jsonLookup (j : Json) (k : String) : Option Json :=
  match j with
  | Json.obj l => (l.find? fun p => p.1 == k).map Prod.snd
  | _ => none

/-- The `result.get('confidence', 0.5)` read of `_calculate_adaptive_ttl`
(a non-numeric value would make the comparisons raise; only numeric
confidences are modelled). -/
def getConfidence (result : Json) : Rat :=
  match jsonLookup result "confidence" with
  | some (Json.num q) => q
  | _ => 1 / 2

/-- Model of `InferenceCache._calculate_adaptive_ttl`: scale the base TTL
by the confidence factor, truncate, scale by the operation's volatility
factor, truncate, and clamp to `[60, 7200]` seconds. -/
def calculate_adaptive_ttl (operation : String) (result : Json)
    (base_ttl : Int) : Int :=
  let confidence := getConfidence result
  let ttl : Int :=
    if 9 / 10 < confidence then pyInt ((base_ttl : Rat) * (3 / 2))
    else if confidence < 7 / 10 then pyInt ((base_ttl : Rat) * (1 / 2))
    else base_ttl
  let ttl := pyInt ((ttl : Rat) * volatility_factors operation)
  max 60 (min ttl 7200)

/-- The Redis calls the cache paths make, each fallible: `get`, `setex`,
`sadd`/`expire` for dependency sets, and the access-stats pipeline. -/
structure CacheStore (ε : Type) where
  get : String → Except ε (Option String)
  setex : String → Int → String → Except ε Unit
  sadd : String → String → Except ε Unit
  expire : String → Int → Except ε Unit
  updateAccessStats : String → Except ε Unit

/-- Model of `InferenceCache.get_cached_result`: any exception inside the
`try` — the Redis `get`, the access-stats update on a hit, or
deserialization — is caught and turned into a miss (`None`). -/
def get_cached_result {ε : Type} (store : CacheStore ε)
    (hash : String → String) (deserialize : String → Except ε Json)
    (operation user_id : String) (data : Json) : Option Json :=
  let cache_key := generate_cache_key hash operation user_id data
  match store.get cache_key with
  | Except.error _ => none
  | Except.ok none => none
  | Except.ok (some cached_data) =>
    match store.updateAccessStats cache_key with
    | Except.error _ => none
    | Except.ok _ =>
      match deserialize cached_data with
      | Except.error _ => none
      | Except.ok result => some result

/-- The `dependency_patterns` table of `_setup_cache_dependencies`. -/
def dependency_patterns (operation user_id : String) : List String :=
  if operation = "budget_optimization" then
    ["user_budget:" ++ user_id, "user_transactions:" ++ user_id]
  else if operation = "portfolio_analysis" then
    ["user_portfolio:" ++ user_id, "market_data:*"]
  else if operation = "financial_analysis" then
    ["user_data:" ++ user_id, "user_accounts:" ++ user_id]
  else if operation = "goal_planning" then
    ["user_goals:" ++ user_id, "user_progress:" ++ user_id]
  else []

/-- The `sadd`/`expire` loop of `_setup_cache_dependencies`. -/
def setup_deps_list {ε : Type} (store : CacheStore ε) (cache_key : String) :
    List String → Except ε Unit
  | [] => Except.ok ()
  | dep :: rest => do
    let _ ← store.sadd ("cache_deps:" ++ dep) cache_key
    let _ ← store.expire ("cache_deps:" ++ dep) 86400
    setup_deps_list store cache_key rest

/-- Model of `InferenceCache._setup_cache_dependencies`. -/
def setup_cache_dependencies {ε : Type} (store : CacheStore ε)
    (cache_key user_id operation : String) : Except ε Unit :=
  setup_deps_list store cache_key (dependency_patterns operation user_id)

/-- Model of `InferenceCache.cache_result`: serialize, store with the
adaptive TTL, register dependency tags for dependency-based operations;
any exception inside the `try` is caught and reported as `False`. -/
def cache_result {ε : Type} (store : CacheStore ε) (hash : String → String)
    (operation user_id : String) (data result : Json) : Bool :=
  let cache_key := generate_cache_key hash operation user_id data
  let config := cache_configs operation
  let ttl := calculate_adaptive_ttl operation result config.ttl_seconds
  match store.setex cache_key ttl (render result) with
  | Except.error _ => false
  | Except.ok _ =>
    match
      (if config.strategy = CacheStrategy.dependency_based then
        setup_cache_dependencies store cache_key user_id operation
      else Except.ok ()) with
    | Except.error _ => false
    | Except.ok _ => true

/-- The request dicts `get_or_batch_compute` hands to `compute_func`. -/
structure RequestData where
  operation : String
  user_id : String
  data : Json

/-- Model of the cache-hit and non-batch-compatible branches of
`InferenceCache.get_or_batch_compute`: on a miss for a non-batchable
operation, compute immediately with a singleton batch, cache `result[0]`
ignoring the write's outcome, and return it.  `none` models the
`IndexError` Python would raise if `compute_func` returned an empty list.
The batch-compatible branch hands the request to the window modelled by
`execute_batch`. -/
def get_or_compute_direct {ε : Type} (store : CacheStore ε)
    (hash : String → String) (deserialize : String → Except ε Json)
    (operation user_id : String) (data : Json)
    (compute : List RequestData → List Json) : Option Json :=
  match get_cached_result store hash deserialize operation user_id data with
  | some cached => some cached
  | none =>
    let results := compute [⟨operation, user_id, data⟩]
    match results.head? with
    | none => none
    | some r =>
      let _ := cache_result store hash operation user_id data r
      some r

/-! ## Performance monitor (`performance_monitor.py`,
class `PerformanceCollector`) -/

/-- A rolling-buffer sample: timestamp (seconds) and value. -/
structure MetricSnapshot where
  timestamp : Nat
  value : Rat
deriving DecidableEq, Repr

/-- Python `min` over a non-empty list (first minimum). -/
def listMinQ : Rat → List Rat → Rat
  | a, [] => a
  | a, b :: l => listMinQ (if b < a then b else a) l

/-- Python `max` over a non-empty list (first maximum). -/
def listMaxQ : Rat → List Rat → Rat
  | a, [] => a
  | a, b :: l => listMaxQ (if a < b then b else a) l

/-- Model of `PerformanceCollector._percentile`: the sorted value at
index `int(len * percentile)`, clamped to the last index; `0.0` on an
empty list. -/
def percentile (values : List Rat) (p : Rat) : Rat :=
  if values.isEmpty then 0
  else
    let sorted_values := List.insertionSort (· ≤ ·) values
    let index := min (pyInt ((values.length : Rat) * p)).toNat
      (values.length - 1)
    sorted_values.getD index 0

/-- `statistics.median`: middle of the sorted list, or the mean of the
two middle values for even length. -/
def pyMedian (values : List Rat) : Rat :=
  let sorted_values := List.insertionSort (· ≤ ·) values
  let n := values.length
  if n % 2 = 1 then sorted_values.getD (n / 2) 0
  else (sorted_values.getD (n / 2 - 1) 0 + sorted_values.getD (n / 2) 0) / 2

/-- The statistics map `get_metric_statistics` returns (the `std_dev`
entry, a floating-point square root irrelevant to the verified claims, is
not modelled). -/
structure MetricStats where
  count : Nat
  mean : Rat
  median : Rat
  min : Rat
  max : Rat
  p95 : Rat
  p99 : Rat
deriving DecidableEq, Repr

/-- The samples of the window: values of buffer entries at or after the
cutoff time (`snap.timestamp >= cutoff_time`). -/
def recentValues (buffer : List MetricSnapshot) (cutoff : Nat) : List Rat :=
  (buffer.filter fun snap => decide (cutoff ≤ snap.timestamp)).map
    fun snap => snap.value

/-- Model of `PerformanceCollector.get_metric_statistics`: `none` models
the empty dict returned when the buffer or the time window is empty. -/
def get_metric_statistics (buffer : List MetricSnapshot) (cutoff : Nat) :
    Option MetricStats :=
  if buffer.isEmpty then none
  else
    match recentValues buffer cutoff with
    | [] => none
    | v :: vs =>
      some
        { count := (v :: vs).length
          mean := ((v :: vs).foldl (· + ·) 0) / ((v :: vs).length : Rat)
          median := pyMedian (v :: vs)
          min := listMinQ v vs
          max := listMaxQ v vs
          p95 := percentile (v :: vs) (95 / 100)
          p99 := percentile (v :: vs) (99 / 100) }

/-! ## Supporting lemmas -/

theorem release_endpoint_load (ep : BackendEndpoint) (response_time_ms : Rat)
    (success : Bool) (c : CircuitInfo) (now : Nat) :
    (release_endpoint ep response_time_ms success c now).1.current_load =
      max 0 (ep.current_load - 1) ∧
    (release_endpoint ep response_time_ms success c now).1.max_concurrent =
      ep.max_concurrent := by
  cases success <;> simp [release_endpoint]

theorem release_endpoint_success_rate (ep : BackendEndpoint)
    (response_time_ms : Rat) (c : CircuitInfo) (now : Nat) :
    (release_endpoint ep response_time_ms true c now).1.success_rate =
      min 1 (ep.success_rate + 1 / 100) ∧
    (release_endpoint ep response_time_ms false c now).1.success_rate =
      max 0 (ep.success_rate - 5 / 100) := by
  constructor <;> simp [release_endpoint]

theorem cbStep_failures_inv {c : CircuitInfo}
    (h : c.state ≠ CBState.closed → circuit_breaker_threshold ≤ c.failures)
    (e : CBEvent) :
    (cbStep c e).state ≠ CBState.closed →
      circuit_breaker_threshold ≤ (cbStep c e).failures := by
  obtain ⟨f, lf, st⟩ := c
  cases e with
  | release now success =>
    cases success with
    | true =>
      simp only [cbStep, release_success_circuit]
      split
      · intro hc; simp at hc
      · exact h
    | false =>
      simp only [cbStep, handle_endpoint_failure]
      split
      · intro _; assumption
      · intro hc
        exact Nat.le_succ_of_le (h hc)
  | check now =>
    cases st with
    | closed => intro hc; exact absurd rfl hc
    | opened =>
      cases lf with
      | some t =>
        simp only [cbStep, is_circuit_closed]
        by_cases hlt : circuit_breaker_timeout < now - t
        · rw [if_pos hlt]
          intro _
          exact h (by simp)
        · rw [if_neg hlt]
          exact h
      | none => exact h
    | half_open => exact h

theorem cbFoldl_failures_inv :
    ∀ (evts : List CBEvent) (c : CircuitInfo),
      (c.state ≠ CBState.closed → circuit_breaker_threshold ≤ c.failures) →
      ((List.foldl cbStep c evts).state ≠ CBState.closed →
        circuit_breaker_threshold ≤ (List.foldl cbStep c evts).failures)
  | [], _, h => h
  | e :: evts, c, h =>
    cbFoldl_failures_inv evts (cbStep c e) (cbStep_failures_inv h e)

/-- Any reachable non-closed circuit state carries at least
`circuit_breaker_threshold` recorded failures. -/
theorem cbRun_failures_inv (evts : List CBEvent)
    (h : (cbRun evts).state ≠ CBState.closed) :
    circuit_breaker_threshold ≤ (cbRun evts).failures :=
  cbFoldl_failures_inv evts initCircuit (fun hc => absurd rfl hc) h

/-! ## Claim theorems -/

/-- Claim C2, counterexample: the code opens the circuit after five
cumulative — not consecutive — failures.  After four failures, one
successful release (while closed) and one more failure, the code's
circuit is `open`, while the machine that follows the spec's words
("a success while closed restarts the failure count") is still `closed`. -/
theorem circuit_nonconsecutive_failures_open :
    (cbRun [CBEvent.release 0 false, CBEvent.release 1 false,
      CBEvent.release 2 false, CBEvent.release 3 false,
      CBEvent.release 4 true, CBEvent.release 5 false]).state = CBState.opened ∧
    (cbRunSpec [CBEvent.release 0 false, CBEvent.release 1 false,
      CBEvent.release 2 false, CBEvent.release 3 false,
      CBEvent.release 4 true, CBEvent.release 5 false]).state = CBState.closed := by
  decide

/-- Claim C2 (amended): the circuit transitions from closed to open
exactly when a failed release brings the cumulative failure count to the
threshold 5 — a success while closed leaves the count (and everything
else) unchanged; from open to half-open only once strictly more than 60
seconds have elapsed since the last failure; from half-open, the next
successful release closes it (resetting the count) and the next failed
release re-opens it (for any reachable circuit state). -/
theorem circuit_transitions_amended :
    (∀ (c : CircuitInfo) (now : Nat), c.state = CBState.closed →
      ((handle_endpoint_failure now c).state = CBState.opened ↔
        circuit_breaker_threshold ≤ c.failures + 1)) ∧
    (∀ c : CircuitInfo, c.state = CBState.closed →
      release_success_circuit c = c) ∧
    (∀ (c : CircuitInfo) (now : Nat), c.state = CBState.opened →
      ((is_circuit_closed now c).2.state = CBState.half_open ↔
        ∃ t, c.lastFailure = some t ∧ circuit_breaker_timeout < now - t)) ∧
    (∀ c : CircuitInfo, c.state = CBState.half_open →
      (release_success_circuit c).state = CBState.closed ∧
      (release_success_circuit c).failures = 0) ∧
    (∀ (evts : List CBEvent) (now : Nat),
      (cbRun evts).state = CBState.half_open →
      (handle_endpoint_failure now (cbRun evts)).state = CBState.opened) := by
  refine ⟨?_, ?_, ?_, ?_, ?_⟩
  · intro c now hc
    simp only [handle_endpoint_failure]
    constructor
    · intro h
      by_contra hlt
      rw [if_neg hlt] at h
      rw [hc] at h
      exact CBState.noConfusion h
    · intro h
      rw [if_pos h]
  · intro c hc
    simp [release_success_circuit, hc]
  · intro c now hc
    obtain ⟨f, lf, st⟩ := c
    have hst : st = CBState.opened := hc
    subst hst
    cases lf with
    | some t =>
      simp only [is_circuit_closed]
      by_cases hlt : circuit_breaker_timeout < now - t
      · rw [if_pos hlt]
        constructor
        · intro _
          exact ⟨t, rfl, hlt⟩
        · intro _
          rfl
      · rw [if_neg hlt]
        constructor
        · intro h
          exact absurd h (by simp)
        · rintro ⟨t', ht', h2⟩
          injection ht' with ht'
          subst ht'
          exact absurd h2 hlt
    | none =>
      simp only [is_circuit_closed]
      constructor
      · intro h
        exact absurd h (by simp)
      · rintro ⟨t', ht', _⟩
        exact Option.noConfusion ht'
  · intro c hc
    simp [release_success_circuit, hc]
  · intro evts now hho
    have hinv : circuit_breaker_threshold ≤ (cbRun evts).failures :=
      cbRun_failures_inv evts (by rw [hho]; simp)
    simp only [handle_endpoint_failure]
    rw [if_pos (Nat.le_succ_of_le hinv)]

/-- Claim C2, witness: a reachable half-open circuit (five failures, then
a check after the timeout) is re-opened by the next failed release. -/
theorem circuit_transitions_amended_witness :
    (handle_endpoint_failure 71 (cbRun [CBEvent.release 0 false,
      CBEvent.release 1 false, CBEvent.release 2 false,
      CBEvent.release 3 false, CBEvent.release 4 false,
      CBEvent.check 70])).state = CBState.opened :=
  circuit_transitions_amended.2.2.2.2 [CBEvent.release 0 false,
    CBEvent.release 1 false, CBEvent.release 2 false,
    CBEvent.release 3 false, CBEvent.release 4 false,
    CBEvent.check 70] 71 (by decide)

/-- Claim C4: after registration `current_load = 0` and, for a
non-negative capacity, `0 ≤ current_load ≤ max_concurrent` holds and is
preserved by every acquire and release; `acquire_endpoint` refuses and
leaves the endpoint unchanged at capacity, and `release_endpoint` floors
the load at zero. -/
theorem current_load_invariant :
    (∀ (endpoint_id url : String) (mc : Int) (w : Rat), 0 ≤ mc →
      (register_endpoint endpoint_id url mc w).current_load = 0 ∧
      0 ≤ (register_endpoint endpoint_id url mc w).current_load ∧
      (register_endpoint endpoint_id url mc w).current_load ≤ mc) ∧
    (∀ ep : BackendEndpoint,
      (ep.max_concurrent ≤ ep.current_load → acquire_endpoint ep = (false, ep)) ∧
      (0 ≤ ep.current_load → ep.current_load ≤ ep.max_concurrent →
        0 ≤ (acquire_endpoint ep).2.current_load ∧
        (acquire_endpoint ep).2.current_load ≤ (acquire_endpoint ep).2.max_concurrent)) ∧
    (∀ (ep : BackendEndpoint) (response_time_ms : Rat) (success : Bool)
        (c : CircuitInfo) (now : Nat),
      0 ≤ ep.current_load → ep.current_load ≤ ep.max_concurrent →
      0 ≤ (release_endpoint ep response_time_ms success c now).1.current_load ∧
      (release_endpoint ep response_time_ms success c now).1.current_load ≤
        (release_endpoint ep response_time_ms success c now).1.max_concurrent) := by
  refine ⟨?_, ?_, ?_⟩
  · intro endpoint_id url mc w hmc
    exact ⟨rfl, le_refl 0, hmc⟩
  · intro ep
    constructor
    · intro h
      simp [acquire_endpoint, h]
    · intro h0 h1
      simp only [acquire_endpoint]
      split
      · exact ⟨h0, h1⟩
      · constructor
        · simp; omega
        · simp; omega
  · intro ep response_time_ms success c now h0 h1
    obtain ⟨hl, hm⟩ := release_endpoint_load ep response_time_ms success c now
    rw [hl, hm]
    exact ⟨le_max_left 0 _, max_le (le_trans h0 h1) (by omega)⟩

/-- Claim C4, witness: the invariant at a concrete endpoint of capacity 5
through a register, acquire and release. -/
theorem current_load_invariant_witness :
    (register_endpoint "e1" "http://m" 5 1).current_load = 0 ∧
    0 ≤ (acquire_endpoint (register_endpoint "e1" "http://m" 5 1)).2.current_load ∧
    0 ≤ (release_endpoint (register_endpoint "e1" "http://m" 5 1) 120 true
      initCircuit 0).1.current_load :=
  ⟨(current_load_invariant.1 "e1" "http://m" 5 1 (by norm_num)).1,
   ((current_load_invariant.2.1 (register_endpoint "e1" "http://m" 5 1)).2
     (by decide) (by decide)).1,
   (current_load_invariant.2.2 (register_endpoint "e1" "http://m" 5 1) 120 true
     initCircuit 0 (by decide) (by decide)).1⟩

/-- Claim C6: for every operation, result payload (whatever its
confidence, present or absent) and base TTL, the adaptive TTL computed by
the cache lies in `[60, 7200]` seconds. -/
theorem adaptive_ttl_bounds (operation : String) (result : Json)
    (base_ttl : Int) :
    60 ≤ calculate_adaptive_ttl operation result base_ttl ∧
    calculate_adaptive_ttl operation result base_ttl ≤ 7200 := by
  unfold calculate_adaptive_ttl
  exact ⟨le_max_left _ _, max_le (by norm_num) (min_le_right _ _)⟩

/-- Claim C9: `success_rate` starts at 1 on registration, and every
release keeps it in `[0, 1]`: a success adds 0.01 capped at 1, a failure
subtracts 0.05 floored at 0. -/
theorem success_rate_bounds :
    (∀ (endpoint_id url : String) (mc : Int) (w : Rat),
      (register_endpoint endpoint_id url mc w).success_rate = 1) ∧
    (∀ (ep : BackendEndpoint) (response_time_ms : Rat) (success : Bool)
        (c : CircuitInfo) (now : Nat),
      0 ≤ ep.success_rate → ep.success_rate ≤ 1 →
      0 ≤ (release_endpoint ep response_time_ms success c now).1.success_rate ∧
      (release_endpoint ep response_time_ms success c now).1.success_rate ≤ 1) := by
  constructor
  · intro _ _ _ _; rfl
  · intro ep response_time_ms success c now h0 h1
    cases success with
    | true =>
      rw [(release_endpoint_success_rate ep response_time_ms c now).1]
      constructor
      · exact le_min (by norm_num) (by linarith)
      · exact min_le_left 1 _
    | false =>
      rw [(release_endpoint_success_rate ep response_time_ms c now).2]
      constructor
      · exact le_max_left 0 _
      · exact max_le (by norm_num) (by linarith)

/-- Claim C9, witness: the bounds at a freshly registered endpoint
through a failed release. -/
theorem success_rate_bounds_witness :
    (register_endpoint "e1" "http://m" 5 1).success_rate = 1 ∧
    0 ≤ (release_endpoint (register_endpoint "e1" "http://m" 5 1) 120 false
      initCircuit 0).1.success_rate ∧
    (release_endpoint (register_endpoint "e1" "http://m" 5 1) 120 false
      initCircuit 0).1.success_rate ≤ 1 :=
  ⟨success_rate_bounds.1 "e1" "http://m" 5 1,
   (success_rate_bounds.2 (register_endpoint "e1" "http://m" 5 1) 120 false
     initCircuit 0 (by norm_num [register_endpoint]) (by norm_num [register_endpoint])).1,
   (success_rate_bounds.2 (register_endpoint "e1" "http://m" 5 1) 120 false
     initCircuit 0 (by norm_num [register_endpoint]) (by norm_num [register_endpoint])).2⟩

theorem get_cached_result_of_get_error {ε : Type} (store : CacheStore ε)
    (hash : String → String) (deserialize : String → Except ε Json)
    (operation user_id : String) (data : Json) (e : ε)
    (h : store.get (generate_cache_key hash operation user_id data) =
      Except.error e) :
    get_cached_result store hash deserialize operation user_id data = none := by
  unfold get_cached_result
  dsimp only
  rw [h]

/-- Claim C8: cache-store exceptions never reach the caller — a failing
read makes `get_cached_result` report a miss, a failing write makes
`cache_result` report `False`, and on the immediate compute path a
request whose cache read fails still gets its computed result back. -/
theorem cache_errors_never_propagate {ε : Type} :
    (∀ (store : CacheStore ε) (hash : String → String)
        (deserialize : String → Except ε Json)
        (operation user_id : String) (data : Json) (e : ε),
      store.get (generate_cache_key hash operation user_id data) =
        Except.error e →
      get_cached_result store hash deserialize operation user_id data = none) ∧
    (∀ (store : CacheStore ε) (hash : String → String)
        (operation user_id : String) (data result : Json) (e : ε),
      store.setex (generate_cache_key hash operation user_id data)
        (calculate_adaptive_ttl operation result
          (cache_configs operation).ttl_seconds)
        (render result) = Except.error e →
      cache_result store hash operation user_id data result = false) ∧
    (∀ (store : CacheStore ε) (hash : String → String)
        (deserialize : String → Except ε Json)
        (operation user_id : String) (data : Json)
        (compute : List RequestData → List Json) (r : Json)
        (rest : List Json) (e : ε),
      store.get (generate_cache_key hash operation user_id data) =
        Except.error e →
      compute [⟨operation, user_id, data⟩] = r :: rest →
      get_or_compute_direct store hash deserialize operation user_id data
        compute = some r) := by
  refine ⟨?_, ?_, ?_⟩
  · intro store hash deserialize operation user_id data e h
    exact get_cached_result_of_get_error store hash deserialize operation
      user_id data e h
  · intro store hash operation user_id data result e h
    unfold cache_result
    dsimp only
    rw [h]
  · intro store hash deserialize operation user_id data compute r rest e hget
    intro hcompute
    unfold get_or_compute_direct
    rw [get_cached_result_of_get_error store hash deserialize operation
      user_id data e hget, hcompute]
    rfl

/-- Claim C8, witness: with a store whose every call raises, a cached
read misses, a write reports failure, and the direct compute path still
returns the computed result. -/
theorem cache_errors_never_propagate_witness :
    get_cached_result (ε := Unit)
      ⟨fun _ => Except.error (), fun _ _ _ => Except.error (),
       fun _ _ => Except.error (), fun _ _ => Except.error (),
       fun _ => Except.error ()⟩
      (fun _ => "h") (fun _ => Except.error ())
      "debt_strategy" "u1" Json.null = none ∧
    cache_result (ε := Unit)
      ⟨fun _ => Except.error (), fun _ _ _ => Except.error (),
       fun _ _ => Except.error (), fun _ _ => Except.error (),
       fun _ => Except.error ()⟩
      (fun _ => "h") "debt_strategy" "u1" Json.null Json.null = false ∧
    get_or_compute_direct (ε := Unit)
      ⟨fun _ => Except.error (), fun _ _ _ => Except.error (),
       fun _ _ => Except.error (), fun _ _ => Except.error (),
       fun _ => Except.error ()⟩
      (fun _ => "h") (fun _ => Except.error ())
      "debt_strategy" "u1" Json.null
      (fun reqs => reqs.map fun _ => Json.bool true) = some (Json.bool true) :=
  ⟨cache_errors_never_propagate.1 _ (fun _ => "h") (fun _ => Except.error ())
      "debt_strategy" "u1" Json.null () rfl,
   cache_errors_never_propagate.2.1 _ (fun _ => "h")
      "debt_strategy" "u1" Json.null Json.null () rfl,
   cache_errors_never_propagate.2.2 _ (fun _ => "h") (fun _ => Except.error ())
      "debt_strategy" "u1" Json.null _ (Json.bool true) [] () rfl rfl⟩

theorem extract_priority_loop_length_le (max_batch_size : Nat)
    (batch_key : String) :
    ∀ (pq : List (Rat × PendingRequest)) (requests : List PendingRequest)
      (remaining : List (Rat × PendingRequest)),
      requests.length ≤ max_batch_size →
      (extract_priority_loop max_batch_size batch_key pq requests
        remaining).1.length ≤ max_batch_size
  | [], requests, remaining, h => h
  | x :: rest, requests, remaining, h => by
    simp only [extract_priority_loop]
    by_cases hlt : requests.length < max_batch_size
    · rw [if_pos hlt]
      by_cases hkey : x.2.batch_key = batch_key
      · rw [if_pos hkey]
        exact extract_priority_loop_length_le max_batch_size batch_key rest
          (requests ++ [x.2]) remaining (by simp; omega)
      · rw [if_neg hkey]
        exact extract_priority_loop_length_le max_batch_size batch_key rest
          requests (remaining ++ [x]) h
    · rw [if_neg hlt]
      exact h

/-- Claim C3, counterexample: the cache's batched-compute window imposes
no size cap — 33 non-cancelled pending requests accumulated in one window
are all passed to the single compute call, exceeding the (unused)
`max_batch_size = 32` attribute. -/
theorem cache_window_batch_exceeds_cap :
    cache_max_batch_size <
      (activeRequests (List.replicate 33 ((false : Bool), ()))).length := by
  decide

/-- Claim C3 (amended): batches flushed by the batcher — the size/timer
trigger's queue slice and the priority-heap extraction — contain at most
`max_batch_size` requests, but the cache's batched-compute window is
unbounded: its compute call receives every non-cancelled request
accumulated in the window. -/
theorem batch_size_bounded_amended (ρ : Type) :
    (∀ (queue : List ρ) (max_batch_size : Nat),
      (trigger_batch_requests queue max_batch_size).1.length ≤ max_batch_size) ∧
    (∀ (max_batch_size : Nat) (batch_key : String)
        (pq : List (Rat × PendingRequest)),
      (extract_priority_requests max_batch_size batch_key pq).1.length ≤
        max_batch_size) ∧
    (∀ pending : List (Bool × ρ),
      (activeRequests pending).length =
        (pending.filter fun p => !p.1).length) := by
  refine ⟨?_, ?_, ?_⟩
  · intro queue max_batch_size
    simp only [trigger_batch_requests]
    rw [List.length_take]
    exact min_le_left _ _
  · intro max_batch_size batch_key pq
    exact extract_priority_loop_length_le max_batch_size batch_key pq [] []
      (Nat.zero_le _)
  · intro pending
    simp [activeRequests]

theorem activeRequests_cons_true {ρ : Type} (r : ρ) (rest : List (Bool × ρ)) :
    activeRequests ((true, r) :: rest) = activeRequests rest := by
  simp [activeRequests]

theorem activeRequests_cons_false {ρ : Type} (r : ρ) (rest : List (Bool × ρ)) :
    activeRequests ((false, r) :: rest) = r :: activeRequests rest := by
  simp [activeRequests]

theorem activeRequests_length {ρ : Type} (pending : List (Bool × ρ)) :
    (activeRequests pending).length = (pending.filter fun p => !p.1).length := by
  simp [activeRequests]

theorem completedValues_cons_none {α : Type} (l : List (Option α)) :
    completedValues (none :: l) = completedValues l := by
  simp [completedValues]

theorem completedValues_cons_some {α : Type} (a : α) (l : List (Option α)) :
    completedValues (some a :: l) = a :: completedValues l := by
  simp [completedValues]

theorem assignResults_length {ρ σ ε : Type} :
    ∀ (pending : List (Bool × ρ)) (results : List σ),
      (assignResults (ε := ε) pending results).length = pending.length
  | [], _ => rfl
  | (true, _) :: rest, results => by
    simp only [assignResults, List.length_cons,
      assignResults_length rest results]
  | (false, _) :: rest, [] => by
    simp only [assignResults, List.length_cons, assignResults_length rest []]
  | (false, _) :: rest, _ :: results => by
    simp only [assignResults, List.length_cons,
      assignResults_length rest results]

theorem completedValues_assignResults {ρ σ ε : Type} :
    ∀ (pending : List (Bool × ρ)) (results : List σ),
      results.length = (activeRequests pending).length →
      completedValues (assignResults (ε := ε) pending results) =
        results.map Except.ok
  | [], results, hlen => by
    have hnil : results = [] :=
      List.eq_nil_of_length_eq_zero (by simpa [activeRequests] using hlen)
    subst hnil; rfl
  | (true, r) :: rest, results, hlen => by
    rw [activeRequests_cons_true] at hlen
    simp only [assignResults, completedValues_cons_none]
    exact completedValues_assignResults rest results hlen
  | (false, r) :: rest, [], hlen => by
    rw [activeRequests_cons_false] at hlen
    simp at hlen
  | (false, r) :: rest, s :: ss, hlen => by
    rw [activeRequests_cons_false] at hlen
    simp only [List.length_cons] at hlen
    simp only [assignResults, completedValues_cons_some, List.map_cons]
    rw [completedValues_assignResults rest ss (by omega)]

theorem zip_assignResults_isSome {ρ σ ε : Type} :
    ∀ (pending : List (Bool × ρ)) (results : List σ),
      results.length = (activeRequests pending).length →
      ∀ pr ∈ pending.zip (assignResults (ε := ε) pending results),
        pr.1.1 = false → pr.2.isSome
  | [], _, _, pr, h, _ => absurd h (List.not_mem_nil pr)
  | (true, r) :: rest, results, hlen, pr, h, hfalse => by
    rw [activeRequests_cons_true] at hlen
    rw [assignResults, List.zip_cons_cons] at h
    rcases List.mem_cons.mp h with h1 | h2
    · subst h1; simp at hfalse
    · exact zip_assignResults_isSome rest results hlen pr h2 hfalse
  | (false, r) :: rest, [], hlen, pr, h, hfalse => by
    rw [activeRequests_cons_false] at hlen
    simp at hlen
  | (false, r) :: rest, s :: ss, hlen, pr, h, hfalse => by
    rw [activeRequests_cons_false] at hlen
    simp only [List.length_cons] at hlen
    rw [assignResults, List.zip_cons_cons] at h
    rcases List.mem_cons.mp h with h1 | h2
    · subst h1; rfl
    · exact zip_assignResults_isSome rest ss (by omega) pr h2 hfalse

theorem completedValues_errorMap {ρ ε σ : Type} (e : ε) :
    ∀ l : List (Bool × ρ),
      completedValues
        ((l.map fun p => if p.1 then none else some (Except.error e)) :
          List (Option (Except ε σ))) =
        List.replicate ((l.filter fun p => !p.1).length) (Except.error e)
  | [] => rfl
  | (b, r) :: rest => by
    cases b <;>
      simp [completedValues_cons_none, completedValues_cons_some,
        completedValues_errorMap e rest, List.replicate_succ]

theorem zip_errorMap_isSome {ρ ε σ : Type} (e : ε) :
    ∀ (l : List (Bool × ρ)) (pr : (Bool × ρ) × Option (Except ε σ)),
      pr ∈ l.zip (l.map fun p => if p.1 then none else some (Except.error e)) →
      pr.1.1 = false → pr.2.isSome
  | [], pr, h, _ => absurd h (List.not_mem_nil pr)
  | p :: rest, pr, h, hfalse => by
    rw [List.map_cons, List.zip_cons_cons] at h
    rcases List.mem_cons.mp h with h1 | h2
    · subst h1
      simp only at hfalse
      simp [hfalse]
    · exact zip_errorMap_isSome e rest pr h2 hfalse

theorem mock_batch_results_length {ρ σ ε : Type} (mk : Nat → ρ → σ) :
    ∀ (i : Nat) (l : List (Bool × ρ)),
      (mock_batch_results (ε := ε) mk i l).length = l.length
  | _, [] => rfl
  | i, (c, r) :: rest => by
    simp only [mock_batch_results, List.length_cons,
      mock_batch_results_length mk (i + 1) rest]

theorem completedValues_mock_batch_results {ρ σ ε : Type} (mk : Nat → ρ → σ) :
    ∀ (i : Nat) (l : List (Bool × ρ)),
      completedValues (mock_batch_results (ε := ε) mk i l) =
        (ownResults mk i l).map Except.ok
  | _, [] => rfl
  | i, (c, r) :: rest => by
    cases c <;>
      simp [mock_batch_results, ownResults, completedValues_cons_none,
        completedValues_cons_some,
        completedValues_mock_batch_results mk (i + 1) rest]

theorem zip_mock_batch_results_isSome {ρ σ ε : Type} (mk : Nat → ρ → σ) :
    ∀ (i : Nat) (l : List (Bool × ρ))
      (pr : (Bool × ρ) × Option (Except ε σ)),
      pr ∈ l.zip (mock_batch_results mk i l) → pr.1.1 = false → pr.2.isSome
  | _, [], pr, h, _ => absurd h (List.not_mem_nil pr)
  | i, p :: rest, pr, h, hfalse => by
    obtain ⟨c, r⟩ := p
    rw [mock_batch_results, List.zip_cons_cons] at h
    rcases List.mem_cons.mp h with h1 | h2
    · subst h1
      simp only at hfalse
      subst hfalse
      rfl
    · exact zip_mock_batch_results_isSome mk (i + 1) rest pr h2 hfalse

theorem all_cancelled_of_activeRequests_nil {ρ : Type}
    {pending : List (Bool × ρ)} (h : activeRequests pending = []) :
    ∀ p ∈ pending, p.1 = true := by
  intro p hp
  have hf : (pending.filter fun q => !q.1) = [] :=
    List.map_eq_nil_iff.mp h
  have hnp := List.filter_eq_nil_iff.mp hf p hp
  simpa using hnp

/-- Claim C1: for every drained batch, on both batched compute paths
(the cache's `_execute_batch` and the batcher's `_process_batch`), every
non-cancelled future is completed, and either each receives its own
positional result of the single compute call or all receive the same
exception — no batch mixes fulfilled, failed and never-completed futures.
For the cache path this assumes the compute contract that a successful
call returns one result per request. -/
theorem batch_all_or_nothing {ρ σ ε : Type}
    (pending : List (Bool × ρ)) (compute : List ρ → Except ε (List σ))
    (hlen : ∀ rs, compute (activeRequests pending) = Except.ok rs →
      rs.length = (activeRequests pending).length)
    (requests : List (Bool × ρ)) (outcome : Except ε Unit) (mk : Nat → ρ → σ) :
    ((execute_batch pending compute).length = pending.length ∧
     (∀ pr ∈ pending.zip (execute_batch pending compute),
       pr.1.1 = false → pr.2.isSome) ∧
     (activeRequests pending ≠ [] →
       (∃ rs, compute (activeRequests pending) = Except.ok rs ∧
         completedValues (execute_batch pending compute) =
           rs.map Except.ok) ∨
       (∃ e, compute (activeRequests pending) = Except.error e ∧
         completedValues (execute_batch pending compute) =
           List.replicate (activeRequests pending).length
             (Except.error e)))) ∧
    ((process_batch requests outcome mk).length = requests.length ∧
     (∀ pr ∈ requests.zip (process_batch requests outcome mk),
       pr.1.1 = false → pr.2.isSome) ∧
     (outcome = Except.ok () →
       completedValues (process_batch requests outcome mk) =
         (ownResults mk 0 requests).map Except.ok) ∧
     (∀ e, outcome = Except.error e →
       completedValues (process_batch requests outcome mk) =
         List.replicate ((requests.filter fun p => !p.1).length)
           (Except.error e))) := by
  constructor
  · by_cases hact : activeRequests pending = []
    · have hout : execute_batch pending compute = pending.map fun _ => none := by
        unfold execute_batch
        dsimp only
        rw [hact]
        rfl
      refine ⟨by rw [hout]; simp, ?_, fun h => absurd hact h⟩
      intro pr hpr hfalse
      obtain ⟨p, o⟩ := pr
      have hmem := (List.of_mem_zip hpr).1
      have := all_cancelled_of_activeRequests_nil hact p hmem
      simp only at hfalse
      rw [hfalse] at this
      exact Bool.noConfusion this
    · have hne : (activeRequests pending).isEmpty = false := by
        cases hh : activeRequests pending with
        | nil => exact absurd hh hact
        | cons x xs => rfl
      cases hc : compute (activeRequests pending) with
      | ok rs =>
        have hrs : rs.length = (activeRequests pending).length := hlen rs hc
        have hout : execute_batch pending compute = assignResults pending rs := by
          unfold execute_batch
          dsimp only
          rw [hne, hc]
          rfl
        refine ⟨by rw [hout]; exact assignResults_length pending rs, ?_, ?_⟩
        · rw [hout]
          exact zip_assignResults_isSome pending rs hrs
        · intro _
          exact Or.inl ⟨rs, rfl, by
            rw [hout]; exact completedValues_assignResults pending rs hrs⟩
      | error e =>
        have hout : execute_batch pending compute =
            pending.map fun p => if p.1 then none else some (Except.error e) := by
          unfold execute_batch
          dsimp only
          rw [hne, hc]
          rfl
        refine ⟨by rw [hout]; simp, ?_, ?_⟩
        · rw [hout]
          exact zip_errorMap_isSome e pending
        · intro _
          refine Or.inr ⟨e, rfl, ?_⟩
          rw [hout, completedValues_errorMap e pending, activeRequests_length]
  · cases outcome with
    | ok u =>
      cases u
      refine ⟨mock_batch_results_length mk 0 requests,
        zip_mock_batch_results_isSome mk 0 requests,
        fun _ => completedValues_mock_batch_results mk 0 requests,
        fun e he => Except.noConfusion he⟩
    | error e0 =>
      refine ⟨by simp [process_batch], ?_, fun h => Except.noConfusion h, ?_⟩
      · intro pr hpr hfalse
        exact zip_errorMap_isSome e0 requests pr hpr hfalse
      · intro e he
        injection he with he
        subst he
        exact completedValues_errorMap e0 requests

/-- Claim C1, witness: a three-request batch with one cancelled future —
on success every live future gets its own positional result (cache path)
and its own indexed mock result (batcher path). -/
theorem batch_all_or_nothing_witness :
    completedValues (execute_batch (ε := Unit)
        [((false : Bool), 1), (true, 2), (false, 3)]
        (fun rs => Except.ok (rs.map fun r => r * 10))) =
      [Except.ok 10, Except.ok 30] ∧
    completedValues (process_batch (ε := Unit)
        [((false : Bool), 1), (true, 2), (false, 3)]
        (Except.ok ()) (fun i r => r + i)) =
      [Except.ok 1, Except.ok 5] := by
  have h := batch_all_or_nothing (ε := Unit)
    [((false : Bool), 1), (true, 2), (false, 3)]
    (fun rs => Except.ok (rs.map fun r => r * 10))
    (fun rs hok => by injection hok with hok; rw [← hok]; simp)
    [((false : Bool), 1), (true, 2), (false, 3)] (Except.ok ())
    (fun i r => r + i)
  constructor
  · rcases h.1.2.2 (by decide) with ⟨rs, hok, hcv⟩ | ⟨e, herr, _⟩
    · rw [hcv]
      injection hok with hok
      rw [← hok]
      rfl
    · exact Except.noConfusion herr
  · rw [h.2.2.2.1 rfl]
    rfl

theorem is_circuit_closed_true_not_opened {now : Nat} {c : CircuitInfo}
    (h : (is_circuit_closed now c).1 = true) :
    (is_circuit_closed now c).2.state ≠ CBState.opened := by
  obtain ⟨f, lf, st⟩ := c
  cases st with
  | closed => simp [is_circuit_closed]
  | opened =>
    cases lf with
    | some t =>
      simp only [is_circuit_closed] at h ⊢
      by_cases hlt : circuit_breaker_timeout < now - t
      · rw [if_pos hlt]
        simp
      · rw [if_neg hlt] at h
        exact absurd h (by simp)
    | none => simp [is_circuit_closed] at h
  | half_open => simp [is_circuit_closed]

theorem is_circuit_closed_preserves_not_opened {now : Nat} {c : CircuitInfo}
    (h : c.state ≠ CBState.opened) :
    (is_circuit_closed now c).2.state ≠ CBState.opened := by
  obtain ⟨f, lf, st⟩ := c
  cases st with
  | closed => simp [is_circuit_closed]
  | opened => exact absurd rfl h
  | half_open => simp [is_circuit_closed]

theorem select_available_preserves_not_opened {now : Nat} :
    ∀ (eps : List BackendEndpoint) (circuits : String → CircuitInfo)
      (id : String),
      (circuits id).state ≠ CBState.opened →
      (((select_available now circuits eps).2) id).state ≠ CBState.opened
  | [], _, _, h => h
  | ep :: rest, circuits, id, h => by
    simp only [select_available]
    by_cases hcond : ep.healthy ∧ ep.current_load < ep.max_concurrent
    · rw [if_pos hcond]
      dsimp only
      apply select_available_preserves_not_opened rest _ id
      by_cases hid : ep.endpoint_id = id
      · subst hid
        rw [Function.update_same]
        exact is_circuit_closed_preserves_not_opened h
      · rw [Function.update_noteq (fun hh => hid hh.symm)]
        exact h
    · rw [if_neg hcond]
      exact select_available_preserves_not_opened rest circuits id h

theorem select_available_mem {now : Nat} :
    ∀ (eps : List BackendEndpoint) (circuits : String → CircuitInfo)
      (ep : BackendEndpoint),
      ep ∈ (select_available now circuits eps).1 →
      ep.healthy = true ∧ ep.current_load < ep.max_concurrent ∧
      (((select_available now circuits eps).2) ep.endpoint_id).state ≠
        CBState.opened
  | [], _, ep, h => absurd h (List.not_mem_nil ep)
  | e :: rest, circuits, ep, h => by
    simp only [select_available] at h ⊢
    by_cases hcond : e.healthy ∧ e.current_load < e.max_concurrent
    · rw [if_pos hcond] at h ⊢
      dsimp only at h ⊢
      by_cases hres : (is_circuit_closed now (circuits e.endpoint_id)).1 = true
      · rw [if_pos hres] at h
        rcases List.mem_cons.mp h with h1 | h2
        · cases h1
          refine ⟨hcond.1, hcond.2, ?_⟩
          apply select_available_preserves_not_opened rest _ e.endpoint_id
          rw [Function.update_same]
          exact is_circuit_closed_true_not_opened hres
        · exact select_available_mem rest _ ep h2
      · rw [if_neg hres] at h
        exact select_available_mem rest _ ep h
    · rw [if_neg hcond] at h ⊢
      exact select_available_mem rest circuits ep h

theorem listMinBy_mem {α β : Type} [LinearOrder β] (f : α → β) :
    ∀ (l : List α) (a : α), listMinBy f a l ∈ a :: l
  | [], a => List.mem_singleton.mpr rfl
  | b :: l, a => by
    simp only [listMinBy]
    have h := listMinBy_mem f l (if f b < f a then b else a)
    by_cases hc : f b < f a
    · rw [if_pos hc] at h ⊢
      rcases List.mem_cons.mp h with h1 | h2
      · rw [h1]
        exact List.mem_cons_of_mem a (List.mem_cons_self b l)
      · exact List.mem_cons_of_mem a (List.mem_cons_of_mem b h2)
    · rw [if_neg hc] at h ⊢
      rcases List.mem_cons.mp h with h1 | h2
      · rw [h1]
        exact List.mem_cons_self a (b :: l)
      · exact List.mem_cons_of_mem a (List.mem_cons_of_mem b h2)

theorem select_endpoint_spec (s : LBState) (now : Nat) :
    (select_endpoint s now).2.circuits =
      (select_available now s.circuits s.endpoints).2 ∧
    (∀ ep, (select_endpoint s now).1 = some ep →
      ep ∈ (select_available now s.circuits s.endpoints).1) := by
  unfold select_endpoint
  dsimp only
  cases hav : (select_available now s.circuits s.endpoints).1 with
  | nil => exact ⟨rfl, fun ep h => Option.noConfusion h⟩
  | cons a rest =>
    cases hst : s.strategy with
    | round_robin =>
      refine ⟨rfl, ?_⟩
      intro ep h
      injection h with h
      rw [← h]
      exact List.get_mem _ _ _
    | least_connections =>
      refine ⟨rfl, ?_⟩
      intro ep h
      injection h with h
      rw [← h]
      exact listMinBy_mem _ rest a
    | weighted_response_time =>
      refine ⟨rfl, ?_⟩
      intro ep h
      injection h with h
      rw [← h]
      exact listMinBy_mem _ rest a
    | resource_based =>
      refine ⟨rfl, ?_⟩
      intro ep h
      injection h with h
      rw [← h]
      exact listMinBy_mem _ rest a

/-- Claim C5: whenever `select_endpoint` returns an endpoint, that
endpoint is healthy, strictly under capacity (in particular its load is
never equal to its capacity), and its circuit breaker is not open in the
updated state — an open circuit whose timeout elapsed was promoted to
half-open by the check.  This holds for every strategy. -/
theorem select_endpoint_sound (s : LBState) (now : Nat) (ep : BackendEndpoint)
    (h : (select_endpoint s now).1 = some ep) :
    ep.healthy = true ∧ ep.current_load < ep.max_concurrent ∧
    (((select_endpoint s now).2).circuits ep.endpoint_id).state ≠
      CBState.opened := by
  obtain ⟨hcirc, hmem⟩ := select_endpoint_spec s now
  rw [hcirc]
  exact select_available_mem s.endpoints s.circuits ep (hmem ep h)

/-- Claim C5, witness: a one-endpoint balancer under the
least-connections strategy returns that endpoint, which is healthy, under
capacity and circuit-closed. -/
theorem select_endpoint_sound_witness :
    (register_endpoint "e1" "http://m" 2 1).healthy = true ∧
    (register_endpoint "e1" "http://m" 2 1).current_load <
      (register_endpoint "e1" "http://m" 2 1).max_concurrent ∧
    (((select_endpoint
        ⟨LoadBalancingStrategy.least_connections,
         [register_endpoint "e1" "http://m" 2 1], fun _ => initCircuit, 0⟩
        5).2).circuits
      (register_endpoint "e1" "http://m" 2 1).endpoint_id).state ≠
      CBState.opened :=
  select_endpoint_sound
    ⟨LoadBalancingStrategy.least_connections,
     [register_endpoint "e1" "http://m" 2 1], fun _ => initCircuit, 0⟩
    5 (register_endpoint "e1" "http://m" 2 1) (by decide)

theorem listMinQ_le : ∀ (l : List Rat) (a x : Rat), x ∈ a :: l →
    listMinQ a l ≤ x
  | [], a, x, h => by
    rw [List.mem_singleton] at h
    subst h
    exact le_refl x
  | b :: l, a, x, h => by
    simp only [listMinQ]
    have hm : (if b < a then b else a) ≤ a ∧ (if b < a then b else a) ≤ b := by
      split_ifs with hc
      · exact ⟨le_of_lt hc, le_refl b⟩
      · exact ⟨le_refl a, le_of_not_lt hc⟩
    rcases List.mem_cons.mp h with h1 | h2
    · subst h1
      exact le_trans (listMinQ_le l _ _ (List.mem_cons_self _ _)) hm.1
    · rcases List.mem_cons.mp h2 with h3 | h4
      · subst h3
        exact le_trans (listMinQ_le l _ _ (List.mem_cons_self _ _)) hm.2
      · exact listMinQ_le l _ x (List.mem_cons_of_mem _ h4)

theorem le_listMaxQ : ∀ (l : List Rat) (a x : Rat), x ∈ a :: l →
    x ≤ listMaxQ a l
  | [], a, x, h => by
    rw [List.mem_singleton] at h
    subst h
    exact le_refl x
  | b :: l, a, x, h => by
    simp only [listMaxQ]
    have hm : a ≤ (if a < b then b else a) ∧ b ≤ (if a < b then b else a) := by
      split_ifs with hc
      · exact ⟨le_of_lt hc, le_refl b⟩
      · exact ⟨le_refl a, le_of_not_lt hc⟩
    rcases List.mem_cons.mp h with h1 | h2
    · subst h1
      exact le_trans hm.1 (le_listMaxQ l _ _ (List.mem_cons_self _ _))
    · rcases List.mem_cons.mp h2 with h3 | h4
      · subst h3
        exact le_trans hm.2 (le_listMaxQ l _ _ (List.mem_cons_self _ _))
      · exact le_listMaxQ l _ x (List.mem_cons_of_mem _ h4)

theorem percentile_mem (values : List Rat) (p : Rat) (h : values ≠ []) :
    percentile values p ∈ values := by
  unfold percentile
  have hne : values.isEmpty = false := by
    cases values with
    | nil => exact absurd rfl h
    | cons v vs => rfl
  rw [hne]
  rw [if_neg (by simp : ¬(false = true))]
  dsimp only
  have hlen : (List.insertionSort (· ≤ ·) values).length = values.length :=
    List.length_insertionSort _ values
  have hpos : 0 < values.length := List.length_pos.mpr h
  have hidx :
      min (pyInt ((values.length : Rat) * p)).toNat (values.length - 1) <
        (List.insertionSort (· ≤ ·) values).length := by
    rw [hlen]
    exact lt_of_le_of_lt (min_le_right _ _) (by omega)
  rw [List.getD_eq_get?, List.get?_eq_get hidx]
  exact (List.perm_insertionSort _ values).subset (List.get_mem _ _ _)

/-- Claim C10: on a non-empty window, `get_metric_statistics` returns p95
and p99 values that are elements of the window's samples and hence lie
between the reported min and max; on an empty window it returns the empty
map (`none`) rather than zeroed statistics. -/
theorem metric_statistics_sound (buffer : List MetricSnapshot) (cutoff : Nat) :
    (recentValues buffer cutoff = [] →
      get_metric_statistics buffer cutoff = none) ∧
    (∀ s, get_metric_statistics buffer cutoff = some s →
      s.p95 ∈ recentValues buffer cutoff ∧
      s.p99 ∈ recentValues buffer cutoff ∧
      s.min ≤ s.p95 ∧ s.p95 ≤ s.max ∧ s.min ≤ s.p99 ∧ s.p99 ≤ s.max) := by
  constructor
  · intro hrec
    unfold get_metric_statistics
    by_cases hb : buffer.isEmpty
    · rw [if_pos hb]
    · rw [if_neg hb, hrec]
  · intro s hs
    unfold get_metric_statistics at hs
    by_cases hb : buffer.isEmpty
    · rw [if_pos hb] at hs
      exact Option.noConfusion hs
    · rw [if_neg hb] at hs
      cases hrec : recentValues buffer cutoff with
      | nil =>
        rw [hrec] at hs
        exact Option.noConfusion hs
      | cons v vs =>
        rw [hrec] at hs
        injection hs with hs
        subst hs
        have hmem95 : percentile (v :: vs) (95 / 100) ∈ v :: vs :=
          percentile_mem _ _ (List.cons_ne_nil v vs)
        have hmem99 : percentile (v :: vs) (99 / 100) ∈ v :: vs :=
          percentile_mem _ _ (List.cons_ne_nil v vs)
        exact ⟨hmem95, hmem99, listMinQ_le vs v _ hmem95,
          le_listMaxQ vs v _ hmem95, listMinQ_le vs v _ hmem99,
          le_listMaxQ vs v _ hmem99⟩

/-- Claim C10, witness: with samples 5 and 7 in the window, p95 and p99
are both 7, an element of the window between min 5 and max 7. -/
theorem metric_statistics_sound_witness :
    (⟨2, 6, 6, 5, 7, 7, 7⟩ : MetricStats).p95 ∈
      recentValues [⟨10, 5⟩, ⟨11, 7⟩] 0 ∧
    (⟨2, 6, 6, 5, 7, 7, 7⟩ : MetricStats).p99 ∈
      recentValues [⟨10, 5⟩, ⟨11, 7⟩] 0 ∧
    (⟨2, 6, 6, 5, 7, 7, 7⟩ : MetricStats).min ≤
      (⟨2, 6, 6, 5, 7, 7, 7⟩ : MetricStats).p95 ∧
    (⟨2, 6, 6, 5, 7, 7, 7⟩ : MetricStats).p95 ≤
      (⟨2, 6, 6, 5, 7, 7, 7⟩ : MetricStats).max ∧
    (⟨2, 6, 6, 5, 7, 7, 7⟩ : MetricStats).min ≤
      (⟨2, 6, 6, 5, 7, 7, 7⟩ : MetricStats).p99 ∧
    (⟨2, 6, 6, 5, 7, 7, 7⟩ : MetricStats).p99 ≤
      (⟨2, 6, 6, 5, 7, 7, 7⟩ : MetricStats).max :=
  (metric_statistics_sound [⟨10, 5⟩, ⟨11, 7⟩] 0).2
    ⟨2, 6, 6, 5, 7, 7, 7⟩ (by
      norm_num [get_metric_statistics, recentValues, pyMedian, percentile,
        pyInt, listMinQ, listMaxQ, List.insertionSort, List.orderedInsert,
        MetricStats.mk.injEq, List.filter, List.getD])

/-- Claim C3, witness for the amended theorem: a queue of three requests
flushed with `max_batch_size = 2` yields a batch of at most two. -/
theorem batch_size_bounded_amended_witness :
    (trigger_batch_requests [1, 2, 3] 2).1.length ≤ 2 :=
  (batch_size_bounded_amended Nat).1 [1, 2, 3] 2

/-- Claim C6, witness: the bounds at a concrete volatile operation whose
result has no confidence field. -/
theorem adaptive_ttl_bounds_witness :
    60 ≤ calculate_adaptive_ttl "market_intelligence" Json.null 60 ∧
    calculate_adaptive_ttl "market_intelligence" Json.null 60 ≤ 7200 :=
  adaptive_ttl_bounds "market_intelligence" Json.null 60

/-- Claim C7: the cache key is a function of the canonical sorted-key
serialization — two well-formed payloads that are equal as maps (same
key–value pairs at every object node, in any order) generate identical
cache keys, for any operation, user and hash function. -/
theorem cache_key_deterministic (hash : String → String)
    (operation user_id : String) (d₁ d₂ : Json)
    (hwf : WFJson d₁) (h : Reorder d₁ d₂) :
    generate_cache_key hash operation user_id d₁ =
      generate_cache_key hash operation user_id d₂ := by
  unfold generate_cache_key dumps
  rw [reorder_canon d₁ d₂ hwf h]

/-- Claim C7, witness: reordering keys both at the top level and inside a
nested object leaves the cache key unchanged. -/
theorem cache_key_deterministic_witness :
    generate_cache_key (fun s => s) "budget_optimization" "u1"
      (Json.obj [("b", Json.num 1),
        ("a", Json.obj [("y", Json.num 2), ("x", Json.num 3)])]) =
    generate_cache_key (fun s => s) "budget_optimization" "u1"
      (Json.obj [("a", Json.obj [("x", Json.num 3), ("y", Json.num 2)]),
        ("b", Json.num 1)]) :=
  cache_key_deterministic (fun s => s) "budget_optimization" "u1"
    (Json.obj [("b", Json.num 1),
      ("a", Json.obj [("y", Json.num 2), ("x", Json.num 3)])])
    (Json.obj [("a", Json.obj [("x", Json.num 3), ("y", Json.num 2)]),
      ("b", Json.num 1)])
    (by simp [WFJson, WFFields, WFList])
    (by
      show Reorder (Json.obj _) (Json.obj _)
      rw [Reorder]
      refine ⟨[("b", Json.num 1),
        ("a", Json.obj [("x", Json.num 3), ("y", Json.num 2)])], ?_, ?_⟩
      · simp [ReorderFields, Reorder]
        exact ⟨[("y", Json.num 2), ("x", Json.num 3)],
          by simp [ReorderFields, Reorder],
          List.Perm.swap ("x", Json.num 3) ("y", Json.num 2) []⟩
      · exact List.Perm.swap
          ("a", Json.obj [("x", Json.num 3), ("y", Json.num 2)])
          ("b", Json.num 1) [])

end Atlas
